import Mathlib

/-!
Shallow embedding of the WebSocket hub of the shopping_list backend
(src/backend-go/internal/websocket/hub.go and client.go), together with
theorems checking the specification's claims about it.

Modelling conventions:
* A Go buffered channel `Send chan Message` (capacity 256) is modelled as a
  list `send : List Message` with a capacity `sendCap`; a non-blocking
  `select { case ch <- m: default: ... }` succeeds exactly when
  `send.length < sendCap`.
* Go maps are modelled as association lists (one entry per key); map
  membership insert/delete keep the list as a duplicate-free set.
* Clients are identified by their `ID` string (Go identifies them by
  pointer; `generateClientID` makes the IDs unique).
* Wall-clock timestamps (`Time`, the pong `timestamp`) are not modelled;
  they do not affect any routing or queueing behaviour.
-/

/-- A JSON-ish value appearing in a message's `Data` payload. -/
inductive DataVal where
  | intVal (n : Int)
  | strVal (s : String)
deriving DecidableEq

/-- hub.go `Message`: the outbound WebSocket message structure.  The Go
struct also carries `Time int64`, stamped in `writePump`; wall-clock time is
not modelled. -/
structure Message where
  type : String
  userID : Int
  listID : Int
  data : List (String × DataVal)
deriving DecidableEq

/-- hub.go message-type constants. -/
def MessageTypeListUpdate : String := "list_update"

def MessageTypeItemUpdate : String := "item_update"

def MessageTypeShareUpdate : String := "share_update"

def MessageTypeNotification : String := "notification"

def MessageTypeUserOnline : String := "user_online"

def MessageTypeUserOffline : String := "user_offline"

/-- client.go client-message-type constants. -/
def ClientMessageSubscribe : String := "subscribe"

def ClientMessageUnsubscribe : String := "unsubscribe"

def ClientMessagePing : String := "ping"

/-- hub.go `Client`: a connected WebSocket client.  `send` models the
buffered `Send chan Message` (contents, in FIFO order), `sendClosed` whether
that channel has been closed, `sendCap` its capacity, and `lists` the
`Lists map[int]bool` subscription set. -/
structure Client where
  id : String
  userID : Int
  send : List Message
  sendClosed : Bool
  sendCap : Nat
  lists : List Int
deriving DecidableEq

/-- hub.go `Hub`: `clients` models `Clients map[int]map[*Client]bool`
(user id to the set of that user's client ids); `conns` is the store of the
client objects themselves, addressed by id. -/
structure Hub where
  clients : List (Int × List String)
  conns : List Client
deriving DecidableEq

/-- hub.go `NewHub()`: empty registry. -/
def newHub : Hub := { clients := [], conns := [] }

/-- Resolve a client id to its client object (Go pointer dereference). -/
def connOf (st : Hub) (cid : String) : Option Client :=
  st.conns.find? (fun c => c.id == cid)

/-- Apply `f` to the client object with id `cid` (mutation through the Go
pointer). -/
def updateClient (l : List Client) (cid : String) (f : Client → Client) : List Client :=
  l.map (fun c => if c.id == cid then f c else c)

/-- `client.Send <- m` succeeding: append to the buffered channel. -/
def enqueue (c : Client) (m : Message) : Client := { c with send := c.send ++ [m] }

/-- `close(client.Send)`. -/
def closeSend (c : Client) : Client := { c with sendClosed := true }

/-- Set insertion for a Go `map[...]bool` used as a set. -/
def setInsert {α : Type} [DecidableEq α] (l : List α) (a : α) : List α :=
  if a ∈ l then l else l ++ [a]

/-- `delete(clients, client)` followed by
`if len(clients) == 0 { delete(h.Clients, userID) }`: remove `cid` from the
entry of `uid` and drop the entry if it became empty. -/
def registryErase : List (Int × List String) → Int → String → List (Int × List String)
  | [], _, _ => []
  | e :: rest, uid, cid =>
    if e.1 = uid then
      (if e.2.erase cid = [] then rest else (e.1, e.2.erase cid) :: rest)
    else e :: registryErase rest uid cid

/-- `if h.Clients[uid] == nil { h.Clients[uid] = make(...) }` followed by
`h.Clients[uid][client] = true`. -/
def registryInsert : List (Int × List String) → Int → String → List (Int × List String)
  | [], uid, cid => [(uid, [cid])]
  | e :: rest, uid, cid =>
    if e.1 = uid then (e.1, setInsert e.2 cid) :: rest
    else e :: registryInsert rest uid cid

/-- `clients, ok := h.Clients[uid]`. -/
def lookupIds (reg : List (Int × List String)) (uid : Int) : Option (List String) :=
  match reg.find? (fun e => e.1 == uid) with
  | none => none
  | some e => some e.2

/-- The non-blocking send used by every hub broadcast loop:
`select { case client.Send <- message: default: close(client.Send);
delete(clients, client); if len(clients) == 0 { delete(h.Clients, userID) } }`. -/
def trySend (st : Hub) (uid : Int) (cid : String) (m : Message) : Hub :=
  match connOf st cid with
  | none => st
  | some c =>
    if c.send.length < c.sendCap then
      { st with conns := updateClient st.conns cid (fun d => enqueue d m) }
    else
      { clients := registryErase st.clients uid cid,
        conns := updateClient st.conns cid closeSend }

/-- hub.go `broadcastToListSubscribers` inner check + send: read
`client.Lists[message.ListID]` and send only when subscribed. -/
def trySendSub (st : Hub) (uid : Int) (cid : String) (m : Message) : Hub :=
  match connOf st cid with
  | none => st
  | some c => if m.listID ∈ c.lists then trySend st uid cid m else st

/-- The message built by hub.go `broadcastUserStatus`. -/
def statusMessage (uid : Int) (ty : String) : Message :=
  { type := ty, userID := uid, listID := 0, data := [("user_id", DataVal.intVal uid)] }

/-- hub.go `broadcastToAll`: send to every registered client of every user. -/
def broadcastToAll (st : Hub) (m : Message) : Hub :=
  st.clients.foldl (fun s e => e.2.foldl (fun s2 cid => trySend s2 e.1 cid m) s) st

/-- hub.go `broadcastToUser`: send to every client of one user. -/
def broadcastToUser (st : Hub) (uid : Int) (m : Message) : Hub :=
  match lookupIds st.clients uid with
  | none => st
  | some ids => ids.foldl (fun s cid => trySend s uid cid m) st

/-- hub.go `broadcastToListSubscribers`: send to every client, of any user,
whose subscription set contains the message's list id. -/
def broadcastToListSubscribers (st : Hub) (m : Message) : Hub :=
  st.clients.foldl (fun s e => e.2.foldl (fun s2 cid => trySendSub s2 e.1 cid m) s) st

/-- hub.go `broadcastUserStatus`: notify every user other than `uid`.
The `if otherUserID != userID` skip is the "don't broadcast to self". -/
def broadcastUserStatus (st : Hub) (uid : Int) (ty : String) : Hub :=
  st.clients.foldl
    (fun s e =>
      if e.1 = uid then s
      else e.2.foldl (fun s2 cid => trySend s2 e.1 cid (statusMessage uid ty)) s)
    st

/-- hub.go `broadcastMessage`: the Router's dispatch switch. -/
def broadcastMessage (st : Hub) (m : Message) : Hub :=
  if m.type = MessageTypeListUpdate ∨ m.type = MessageTypeItemUpdate then
    broadcastToListSubscribers st m
  else if m.type = MessageTypeShareUpdate then broadcastToUser st m.userID m
  else if m.type = MessageTypeNotification then broadcastToUser st m.userID m
  else if m.type = MessageTypeUserOnline ∨ m.type = MessageTypeUserOffline then
    broadcastToAll st m
  else st

/-- hub.go `registerClient`: insert under the user id, then (always)
broadcast `user_online`.  The client object itself was created by the caller
(`ServeWS`) and is already in `conns`. -/
def registerClient (st : Hub) (c : Client) : Hub :=
  broadcastUserStatus { st with clients := registryInsert st.clients c.userID c.id }
    c.userID MessageTypeUserOnline

/-- hub.go `unregisterClient`: membership-guarded removal; closes the send
channel, and broadcasts `user_offline` when the user's last client is gone.
The source passes the `*Client`; only its `UserID` and identity are used. -/
def unregisterClient (st : Hub) (uid : Int) (cid : String) : Hub :=
  match lookupIds st.clients uid with
  | none => st
  | some ids =>
    if cid ∈ ids then
      let st1 : Hub := { clients := registryErase st.clients uid cid,
                         conns := updateClient st.conns cid closeSend }
      if ids.erase cid = [] then broadcastUserStatus st1 uid MessageTypeUserOffline else st1
    else st

/-- client.go `ClientMessage`: incoming control message. -/
structure ClientMessage where
  type : String
  listID : Int
deriving DecidableEq

/-- hub.go `SubscribeToList`: `c.Lists[listID] = true`. -/
def subscribeToList (st : Hub) (cid : String) (lid : Int) : Hub :=
  { st with conns := updateClient st.conns cid (fun c => { c with lists := setInsert c.lists lid }) }

/-- hub.go `UnsubscribeFromList`: `delete(c.Lists, listID)`. -/
def unsubscribeFromList (st : Hub) (cid : String) (lid : Int) : Hub :=
  { st with conns := updateClient st.conns cid (fun c => { c with lists := c.lists.erase lid }) }

/-- The `subscribed` confirmation built in client.go `handleClientMessage`. -/
def subscribedMessage (lid : Int) : Message :=
  { type := "subscribed", userID := 0, listID := lid,
    data := [("list_id", DataVal.intVal lid), ("status", DataVal.strVal "subscribed")] }

/-- The `unsubscribed` confirmation built in client.go `handleClientMessage`. -/
def unsubscribedMessage (lid : Int) : Message :=
  { type := "unsubscribed", userID := 0, listID := lid,
    data := [("list_id", DataVal.intVal lid), ("status", DataVal.strVal "unsubscribed")] }

/-- The `pong` response built in client.go `handleClientMessage`; the
wall-clock `timestamp` value is not modelled. -/
def pongMessage : Message :=
  { type := "pong", userID := 0, listID := 0, data := [("timestamp", DataVal.intVal 0)] }

/-- client.go `handleClientMessage` response enqueue:
`select { case c.Send <- response: default: close(c.Send) }`.
Note: unlike the hub broadcast loops, the overflow branch only closes the
channel; it does NOT remove the client from the hub registry. -/
def selfEnqueue (st : Hub) (cid : String) (resp : Message) : Hub :=
  match connOf st cid with
  | none => st
  | some c =>
    if c.send.length < c.sendCap then
      { st with conns := updateClient st.conns cid (fun d => enqueue d resp) }
    else
      { st with conns := updateClient st.conns cid closeSend }

/-- client.go `handleClientMessage`: the inbound control-message switch. -/
def handleClientMessage (st : Hub) (cid : String) (m : ClientMessage) : Hub :=
  if m.type = ClientMessageSubscribe then
    if m.listID > 0 then
      selfEnqueue (subscribeToList st cid m.listID) cid (subscribedMessage m.listID)
    else st
  else if m.type = ClientMessageUnsubscribe then
    if m.listID > 0 then
      selfEnqueue (unsubscribeFromList st cid m.listID) cid (unsubscribedMessage m.listID)
    else st
  else if m.type = ClientMessagePing then selfEnqueue st cid pongMessage
  else st

/-- The client object built in hub.go `ServeWS`: fresh id, empty
subscription set, send channel of capacity 256. -/
def mkClient (cid : String) (uid : Int) : Client :=
  { id := cid, userID := uid, send := [], sendClosed := false, sendCap := 256, lists := [] }

/-- hub.go `ServeWS`: if the websocket upgrade fails the handler returns
before any client is constructed; otherwise it builds the client and hands
it to the hub's register path. -/
def serveWS (st : Hub) (upgradeOk : Bool) (uid : Int) (newID : String) : Hub × Option Client :=
  if upgradeOk then
    let c := mkClient newID uid
    (registerClient { st with conns := st.conns ++ [c] } c, some c)
  else (st, none)

/-- client.go `writePump` coalescing loop: after writing the first queued
message, `n := len(c.Send)` further queued messages are drained into the
same wire write, in channel order. -/
def drainQueued : Nat → List Message → List Message
  | 0, _ => []
  | _ + 1, [] => []
  | n + 1, msg :: rest => msg :: drainQueued n rest

/-- client.go `writePump`: one wake-up of the writer on a non-empty queue
serializes the head message followed by the coalesced drain of everything
queued behind it.  Returns the messages in the order they hit the wire. -/
def writePumpBatch : List Message → List Message
  | [] => []
  | msg :: rest => msg :: drainQueued rest.length rest

/-- A register/unregister request arriving on the hub's `Register` /
`Unregister` channels (hub.go `Run`); registration also covers the
`ServeWS` construction of the client object. -/
inductive HubOp where
  | register (cid : String) (uid : Int)
  | unregister (cid : String) (uid : Int)
deriving DecidableEq

/-- One iteration of hub.go `Run` on a register/unregister request. -/
def applyOp (st : Hub) : HubOp → Hub
  | .register cid uid =>
      registerClient { st with conns := st.conns ++ [mkClient cid uid] } (mkClient cid uid)
  | .unregister cid uid => unregisterClient st uid cid

/-- Run a sequence of register/unregister requests from the empty hub. -/
def runOps (ops : List HubOp) : Hub := ops.foldl applyOp newHub

/-- Modelled from the spec (P2): the expected per-user set of client ids,
"exactly the set of Connections currently registered for u", i.e. registered
and not yet unregistered, computed from the operation sequence alone. -/
def specStep (acc : Int → List String) : HubOp → (Int → List String)
  | .register cid uid => fun u => if u = uid then setInsert (acc u) cid else acc u
  | .unregister cid uid => fun u => if u = uid then (acc u).erase cid else acc u

/-- Modelled from the spec (P2): the set of client ids registered for each
user and not yet unregistered, after a sequence of operations. -/
def specRegistered (ops : List HubOp) : Int → List String :=
  ops.foldl specStep (fun _ => [])

/-- The ids of the register operations in a sequence. -/
def regCids : List HubOp → List String
  | [] => []
  | .register cid _ :: rest => cid :: regCids rest
  | .unregister _ _ :: rest => regCids rest

/-- All registered client ids of a registry (flattened). -/
def regIds : List (Int × List String) → List String
  | [] => []
  | e :: rest => e.2 ++ regIds rest

/-- The user-id keys of a registry. -/
def regKeys (reg : List (Int × List String)) : List Int := reg.map Prod.fst

/-- The (user id, client id) pairs of a registry, in iteration order. -/
def targetsOf : List (Int × List String) → List (Int × String)
  | [] => []
  | e :: rest => e.2.map (fun cid => (e.1, cid)) ++ targetsOf rest

/-- Folding `trySend` over a flat list of (user id, client id) targets. -/
def sendFold (st : Hub) (ts : List (Int × String)) (m : Message) : Hub :=
  ts.foldl (fun s t => trySend s t.1 t.2 m) st

/-- Folding `trySendSub` over a flat list of (user id, client id) targets. -/
def sendFoldSub (st : Hub) (ts : List (Int × String)) (m : Message) : Hub :=
  ts.foldl (fun s t => trySendSub s t.1 t.2 m) st

/-- One client's space check: either it is not subscribed to the message's
list, or its send queue has room. -/
def clientSpaceOk (st : Hub) (m : Message) (cid : String) : Bool :=
  match connOf st cid with
  | none => true
  | some c => !(decide (m.listID ∈ c.lists)) || decide (c.send.length < c.sendCap)

/-- Decidable space check used as a hypothesis for overflow-free list
broadcasts: every registered client that is subscribed to the message's list
has room in its send queue. -/
def spaceForList (st : Hub) (m : Message) : Bool :=
  st.clients.all (fun e => e.2.all (fun cid => clientSpaceOk st m cid))

/-- A sample message for building concrete states. -/
def dummyMessage : Message := { type := MessageTypeNotification, userID := 0, listID := 0, data := [] }

/-! ### Basic lemmas about the state operations -/

theorem find_map_idpres (l : List Client) (p : String) (f : Client → Client)
    (hf : ∀ c, (f c).id = c.id) :
    (l.map f).find? (fun c => c.id == p) = (l.find? (fun c => c.id == p)).map f := by
  induction l with
  | nil => rfl
  | cons a t ih =>
    simp only [List.map_cons, List.find?_cons, hf a]
    cases hbeq : (a.id == p)
    · simpa [hbeq] using ih
    · simp [hbeq]

theorem connOf_updateClient (st : Hub) (reg : List (Int × List String))
    (cid cid' : String) (f : Client → Client) (hf : ∀ c, (f c).id = c.id) :
    connOf { clients := reg, conns := updateClient st.conns cid f } cid'
      = (connOf st cid').map (fun c => if c.id == cid then f c else c) := by
  unfold connOf updateClient
  exact find_map_idpres st.conns cid' _ (fun c => by by_cases h : c.id = cid <;> simp [h, hf c])

theorem connOf_mem (st : Hub) (cid : String) (c : Client) (h : connOf st cid = some c) :
    c ∈ st.conns ∧ c.id = cid := by
  refine ⟨List.mem_of_find?_eq_some h, ?_⟩
  have := List.find?_some h
  simpa using this

theorem trySend_none (st : Hub) (uid : Int) (cid : String) (m : Message)
    (h : connOf st cid = none) : trySend st uid cid m = st := by
  unfold trySend
  rw [h]

theorem trySend_some (st : Hub) (uid : Int) (cid : String) (m : Message) (c : Client)
    (h : connOf st cid = some c) :
    trySend st uid cid m =
      if c.send.length < c.sendCap then
        { st with conns := updateClient st.conns cid (fun d => enqueue d m) }
      else
        { clients := registryErase st.clients uid cid,
          conns := updateClient st.conns cid closeSend } := by
  unfold trySend
  rw [h]

/-- `trySend` on a client with queue space: registry untouched, only that
client's queue is appended to. -/
theorem trySend_space (st : Hub) (uid : Int) (cid : String) (m : Message) (c : Client)
    (hc : connOf st cid = some c) (hs : c.send.length < c.sendCap) :
    trySend st uid cid m
      = { st with conns := updateClient st.conns cid (fun d => enqueue d m) } := by
  rw [trySend_some st uid cid m c hc, if_pos hs]

theorem trySend_frame (st : Hub) (uid : Int) (cid cid' : String) (m : Message)
    (hne : cid' ≠ cid) : connOf (trySend st uid cid m) cid' = connOf st cid' := by
  have key : ∀ (reg : List (Int × List String)) (f : Client → Client),
      (∀ d, (f d).id = d.id) →
      connOf { clients := reg, conns := updateClient st.conns cid f } cid' = connOf st cid' := by
    intro reg f hf
    rw [connOf_updateClient st reg cid cid' f hf]
    cases hfind' : connOf st cid' with
    | none => rfl
    | some d =>
      have hd := (connOf_mem st cid' d hfind').2
      simp [hd, hne]
  cases hfind : connOf st cid with
  | none => rw [trySend_none st uid cid m hfind]
  | some c =>
    rw [trySend_some st uid cid m c hfind]
    by_cases hs : c.send.length < c.sendCap
    · rw [if_pos hs]
      exact key st.clients (fun d => enqueue d m) (fun d => rfl)
    · rw [if_neg hs]
      exact key (registryErase st.clients uid cid) closeSend (fun d => rfl)

theorem trySend_self_space (st : Hub) (uid : Int) (cid : String) (m : Message) (c : Client)
    (hc : connOf st cid = some c) (hs : c.send.length < c.sendCap) :
    connOf (trySend st uid cid m) cid = some (enqueue c m) := by
  rw [trySend_space st uid cid m c hc hs]
  rw [connOf_updateClient st st.clients cid cid (fun d => enqueue d m) (fun d => rfl), hc]
  have hid := (connOf_mem st cid c hc).2
  simp [hid]

/-- `trySend` never changes any client's `lists`; it can only append to
`send` or set `sendClosed`. -/
theorem trySend_lists (st : Hub) (uid : Int) (cid cid' : String) (m : Message) :
    ((connOf (trySend st uid cid m) cid').map Client.lists)
      = (connOf st cid').map Client.lists := by
  by_cases hne : cid' = cid
  · subst hne
    cases hfind : connOf st cid' with
    | none => rw [trySend_none st uid cid' m hfind, hfind]
    | some c =>
      rw [trySend_some st uid cid' m c hfind]
      by_cases hs : c.send.length < c.sendCap
      · rw [if_pos hs,
          connOf_updateClient st st.clients cid' cid' (fun d => enqueue d m) (fun d => rfl),
          hfind]
        have hid := (connOf_mem st cid' c hfind).2
        simp [hid, enqueue]
      · rw [if_neg hs,
          connOf_updateClient st (registryErase st.clients uid cid') cid' cid' closeSend
            (fun d => rfl), hfind]
        have hid := (connOf_mem st cid' c hfind).2
        simp [hid, closeSend]
  · rw [trySend_frame st uid cid cid' m hne]

/-! ### Claim theorems: the easy structural ones -/

/-- C9: if the transport upgrade in ServeWS fails, the handler returns with
the hub registry completely unchanged and no client object created. -/
theorem serveWS_upgrade_failure (st : Hub) (uid : Int) (newID : String) :
    serveWS st false uid newID = (st, none) := rfl

theorem drainQueued_self (q : List Message) : drainQueued q.length q = q := by
  induction q with
  | nil => rfl
  | cons m rest ih => simpa [drainQueued] using ih

/-- C6: one writer wake-up serializes the queued messages exactly in their
enqueue (FIFO) order — the coalescing loop (`n := len(c.Send)` then drain)
preserves relative order and drops nothing, so a message enqueued earlier is
always written to the wire before a message enqueued later. -/
theorem writePump_fifo (q : List Message) : writePumpBatch q = q := by
  cases q with
  | nil => rfl
  | cons m rest => simpa [writePumpBatch] using drainQueued_self rest

/-- C10: a subscribe or unsubscribe control message whose `list_id` is zero
or negative is ignored entirely: no subscription change, no confirmation,
the hub state is unchanged. -/
theorem nonpositive_list_id_ignored (st : Hub) (cid : String) (m : ClientMessage)
    (hneg : m.listID ≤ 0)
    (hty : m.type = ClientMessageSubscribe ∨ m.type = ClientMessageUnsubscribe) :
    handleClientMessage st cid m = st := by
  have hnotpos : ¬ (m.listID > 0) := by omega
  cases hty with
  | inl h => simp [handleClientMessage, h, hnotpos]
  | inr h =>
    have hne : ¬ (m.type = ClientMessageSubscribe) := by
      rw [h]; simp [ClientMessageSubscribe, ClientMessageUnsubscribe]
    simp [handleClientMessage, h, hne, hnotpos]

theorem nonpositive_list_id_ignored_witness :
    handleClientMessage { clients := [(1, ["a"])], conns := [mkClient "a" 1] } "a"
        { type := "subscribe", listID := -3 }
      = { clients := [(1, ["a"])], conns := [mkClient "a" 1] } :=
  nonpositive_list_id_ignored _ "a" _ (by decide) (Or.inl rfl)

/-- C8: unregistering a client that is not (or no longer) in the registry —
because it was already unregistered, or dropped by the queue-full path — is
a complete no-op: the membership guard makes the close unreachable and the
state is returned unchanged. -/
theorem double_unregister_noop (st : Hub) (uid : Int) (cid : String)
    (h : lookupIds st.clients uid = none ∨
         ∃ ids, lookupIds st.clients uid = some ids ∧ cid ∉ ids) :
    unregisterClient st uid cid = st := by
  unfold unregisterClient
  cases hlk : lookupIds st.clients uid with
  | none => rfl
  | some ids =>
    cases h with
    | inl h0 => rw [hlk] at h0; exact absurd h0 (by simp)
    | inr h0 =>
      obtain ⟨ids', hids', hmem⟩ := h0
      rw [hlk] at hids'
      have : ids = ids' := by injection hids'
      subst this
      simp [hmem]

theorem double_unregister_noop_witness :
    unregisterClient { clients := [(2, ["b"])], conns := [mkClient "b" 2] } 1 "a"
      = { clients := [(2, ["b"])], conns := [mkClient "b" 2] } :=
  double_unregister_noop _ 1 "a" (Or.inl rfl)

theorem selfEnqueue_some (st : Hub) (cid : String) (resp : Message) (c : Client)
    (h : connOf st cid = some c) :
    selfEnqueue st cid resp =
      if c.send.length < c.sendCap then
        { st with conns := updateClient st.conns cid (fun d => enqueue d resp) }
      else { st with conns := updateClient st.conns cid closeSend } := by
  unfold selfEnqueue
  rw [h]

theorem connOf_subscribeToList (st : Hub) (cid : String) (lid : Int) (c : Client)
    (hc : connOf st cid = some c) :
    connOf (subscribeToList st cid lid) cid = some { c with lists := setInsert c.lists lid } := by
  unfold subscribeToList
  rw [connOf_updateClient st st.clients cid cid
        (fun d => { d with lists := setInsert d.lists lid }) (fun d => rfl), hc]
  have hid := (connOf_mem st cid c hc).2
  simp [hid]

theorem connOf_unsubscribeFromList (st : Hub) (cid : String) (lid : Int) (c : Client)
    (hc : connOf st cid = some c) :
    connOf (unsubscribeFromList st cid lid) cid = some { c with lists := c.lists.erase lid } := by
  unfold unsubscribeFromList
  rw [connOf_updateClient st st.clients cid cid
        (fun d => { d with lists := d.lists.erase lid }) (fun d => rfl), hc]
  have hid := (connOf_mem st cid c hc).2
  simp [hid]

theorem connOf_selfEnqueue_space (st : Hub) (cid : String) (resp : Message) (c : Client)
    (hc : connOf st cid = some c) (hs : c.send.length < c.sendCap) :
    connOf (selfEnqueue st cid resp) cid = some (enqueue c resp) := by
  rw [selfEnqueue_some st cid resp c hc, if_pos hs,
    connOf_updateClient st st.clients cid cid (fun d => enqueue d resp) (fun d => rfl), hc]
  have hid := (connOf_mem st cid c hc).2
  simp [hid]

/-- C7: a subscribe control message with a positive list id adds the list to
the connection's own subscription set and enqueues a `subscribed`
confirmation carrying that list id on the connection's own send queue
(when there is room); symmetrically, unsubscribe removes the list id and
enqueues an `unsubscribed` confirmation. -/
theorem subscribe_confirmation (st : Hub) (cid : String) (c : Client) (lid : Int)
    (hc : connOf st cid = some c) (hpos : lid > 0)
    (hs : c.send.length < c.sendCap) :
    connOf (handleClientMessage st cid { type := ClientMessageSubscribe, listID := lid }) cid
      = some { c with lists := setInsert c.lists lid, send := c.send ++ [subscribedMessage lid] }
    ∧ connOf (handleClientMessage st cid { type := ClientMessageUnsubscribe, listID := lid }) cid
      = some { c with lists := c.lists.erase lid, send := c.send ++ [unsubscribedMessage lid] } := by
  constructor
  · have hone : handleClientMessage st cid { type := ClientMessageSubscribe, listID := lid }
        = selfEnqueue (subscribeToList st cid lid) cid (subscribedMessage lid) := by
      simp [handleClientMessage, hpos]
    rw [hone]
    have h2 := connOf_subscribeToList st cid lid c hc
    rw [connOf_selfEnqueue_space (subscribeToList st cid lid) cid (subscribedMessage lid)
          { c with lists := setInsert c.lists lid } h2 (by simpa using hs)]
    simp [enqueue]
  · have hone : handleClientMessage st cid { type := ClientMessageUnsubscribe, listID := lid }
        = selfEnqueue (unsubscribeFromList st cid lid) cid (unsubscribedMessage lid) := by
      simp [handleClientMessage, hpos, ClientMessageSubscribe, ClientMessageUnsubscribe]
    rw [hone]
    have h2 := connOf_unsubscribeFromList st cid lid c hc
    rw [connOf_selfEnqueue_space (unsubscribeFromList st cid lid) cid (unsubscribedMessage lid)
          { c with lists := c.lists.erase lid } h2 (by simpa using hs)]
    simp [enqueue]

theorem subscribe_confirmation_witness :
    connOf (handleClientMessage { clients := [(1, ["a"])], conns := [mkClient "a" 1] } "a"
        { type := ClientMessageSubscribe, listID := 9 }) "a"
      = some { (mkClient "a" 1) with
               lists := setInsert (mkClient "a" 1).lists 9,
               send := (mkClient "a" 1).send ++ [subscribedMessage 9] } :=
  (subscribe_confirmation { clients := [(1, ["a"])], conns := [mkClient "a" 1] } "a"
    (mkClient "a" 1) 9 rfl (by decide) (by decide)).1

/-- A client whose outbound queue (capacity 1) is already full. -/
def fullClientC1 : Client :=
  { id := "a", userID := 1, send := [dummyMessage], sendClosed := false, sendCap := 1,
    lists := [] }

/-- A hub in which user 1's only client has a full outbound queue. -/
def hubC1 : Hub := { clients := [(1, ["a"])], conns := [fullClientC1] }

/-- C1 (code bug): on the protocol-handler confirmation path, a full
outbound queue makes `handleClientMessage` close the send channel but, in
contrast with every hub broadcast loop, it leaves the client registered in
`hub.Clients`: the registry is unchanged, with the closed client still
present.  (A later unregister or broadcast would then close or send on the
already-closed channel.) -/
theorem confirmation_overflow_keeps_registration :
    (handleClientMessage hubC1 "a" { type := ClientMessageSubscribe, listID := 9 }).clients
        = [(1, ["a"])]
    ∧ (connOf (handleClientMessage hubC1 "a"
          { type := ClientMessageSubscribe, listID := 9 }) "a").map Client.sendClosed
        = some true
    ∧ (connOf (handleClientMessage hubC1 "a"
          { type := ClientMessageSubscribe, listID := 9 }) "a").map Client.send
        = some [dummyMessage] := by
  decide

/-- A hub where user 1 already has client "a" and user 2 has client "c". -/
def hubC4 : Hub :=
  { clients := [(1, ["a"]), (2, ["c"])], conns := [mkClient "a" 1, mkClient "c" 2] }

/-- C4 counterexample: user 1 already has a registered client, yet
registering a second client "b" for user 1 still publishes a `user_online`
event, observed here on user 2's client — contradicting "registering a
second Connection publishes neither event". -/
theorem second_register_still_broadcasts_online :
    (connOf (applyOp hubC4 (HubOp.register "b" 1)) "c").map Client.send
        = some [statusMessage 1 MessageTypeUserOnline]
    ∧ (connOf (applyOp hubC4 (HubOp.register "b" 1)) "c").map Client.send ≠ some [] := by
  decide

/-- A hub with a single client "a" owned by user 1. -/
def hubC5 : Hub := { clients := [(1, ["a"])], conns := [mkClient "a" 1] }

/-- C5 counterexample: a `user_online` event with subject user 1 dispatched
through the Router's `broadcastMessage` path is delivered to user 1's own
client "a" — the `broadcastToAll` routing does not exclude the subject
user, contradicting "on no Connection owned by u". -/
theorem broadcast_status_reaches_subject :
    (connOf (broadcastMessage hubC5 (statusMessage 1 MessageTypeUserOnline)) "a").map Client.send
        = some [statusMessage 1 MessageTypeUserOnline]
    ∧ (connOf (broadcastMessage hubC5
          (statusMessage 1 MessageTypeUserOnline)) "a").map Client.send ≠ some [] := by
  decide

/-! ### Generic lemmas about broadcast folds -/

theorem map_congr_mem {α β : Type} (l : List α) (f g : α → β) (h : ∀ a ∈ l, f a = g a) :
    l.map f = l.map g := by
  induction l with
  | nil => rfl
  | cons a t ih =>
    simp only [List.map_cons]
    rw [h a (by simp), ih (fun x hx => h x (by simp [hx]))]

theorem find?_append_some {α : Type} (l1 l2 : List α) (p : α → Bool) (a : α)
    (h : l1.find? p = some a) : (l1 ++ l2).find? p = some a := by
  induction l1 with
  | nil => simp [List.find?] at h
  | cons b t ih =>
    cases hb : p b
    · rw [List.find?_cons_of_neg _ (by simp [hb])] at h
      rw [List.cons_append, List.find?_cons_of_neg _ (by simp [hb])]
      exact ih h
    · rw [List.find?_cons_of_pos _ hb] at h
      rw [List.cons_append, List.find?_cons_of_pos _ hb]
      exact h

theorem connOf_appendConn (st : Hub) (reg : List (Int × List String)) (newc : Client)
    (cid : String) (c : Client) (hc : connOf st cid = some c) :
    connOf { clients := reg, conns := st.conns ++ [newc] } cid = some c :=
  find?_append_some st.conns [newc] _ c hc

theorem sendFold_cons (st : Hub) (t : Int × String) (ts : List (Int × String)) (m : Message) :
    sendFold st (t :: ts) m = sendFold (trySend st t.1 t.2 m) ts m := rfl

theorem sendFold_append (st : Hub) (ts1 ts2 : List (Int × String)) (m : Message) :
    sendFold st (ts1 ++ ts2) m = sendFold (sendFold st ts1 m) ts2 m := by
  simp [sendFold, List.foldl_append]

theorem sendFold_frame (ts : List (Int × String)) (st : Hub) (m : Message) (cid : String)
    (h : cid ∉ ts.map Prod.snd) :
    connOf (sendFold st ts m) cid = connOf st cid := by
  induction ts generalizing st with
  | nil => rfl
  | cons t rest ih =>
    simp only [List.map_cons, List.mem_cons, not_or] at h
    rw [sendFold_cons, ih _ h.2, trySend_frame st t.1 t.2 cid m h.1]

/-- A target with queue space that occurs (with no duplicate id) in the
target list receives exactly one copy of the message, whatever happens to
the other targets. -/
theorem sendFold_delivers (ts : List (Int × String)) (st : Hub) (m : Message)
    (u0 : Int) (dcid : String) (d : Client)
    (hn : (ts.map Prod.snd).Nodup) (hmem : (u0, dcid) ∈ ts)
    (hc : connOf st dcid = some d) (hs : d.send.length < d.sendCap) :
    connOf (sendFold st ts m) dcid = some (enqueue d m) := by
  induction ts generalizing st with
  | nil => cases hmem
  | cons t rest ih =>
    simp only [List.map_cons, List.nodup_cons] at hn
    rw [sendFold_cons]
    by_cases he : t.2 = dcid
    · have hdel : connOf (trySend st t.1 t.2 m) dcid = some (enqueue d m) := by
        rw [he]
        exact trySend_self_space st t.1 dcid m d hc hs
      have hnot : dcid ∉ rest.map Prod.snd := by rw [← he]; exact hn.1
      rw [sendFold_frame rest _ m dcid hnot, hdel]
    · have hmem' : (u0, dcid) ∈ rest := by
        cases hmem with
        | head => exact absurd rfl he
        | tail _ h0 => exact h0
      have hfr := trySend_frame st t.1 t.2 dcid m (fun hh => he hh.symm)
      exact ih _ hn.2 hmem' (by rw [hfr]; exact hc)

theorem sendFold_lists (ts : List (Int × String)) (st : Hub) (m : Message) (cid' : String) :
    (connOf (sendFold st ts m) cid').map Client.lists
      = (connOf st cid').map Client.lists := by
  induction ts generalizing st with
  | nil => rfl
  | cons t rest ih => rw [sendFold_cons, ih, trySend_lists]

/-- Append the message to a client iff its id is among the targeted ids. -/
def appendIfIn (tsIds : List String) (m : Message) (c : Client) : Client :=
  if c.id ∈ tsIds then enqueue c m else c

theorem appendIfIn_id (tsIds : List String) (m : Message) (c : Client) :
    (appendIfIn tsIds m c).id = c.id := by
  unfold appendIfIn
  by_cases h : c.id ∈ tsIds <;> simp [h, enqueue]

theorem map_comp_pointwise {α β γ : Type} (l : List α) (f : α → β) (g : β → γ) (h : α → γ)
    (hh : ∀ a ∈ l, g (f a) = h a) : (l.map f).map g = l.map h := by
  rw [List.map_map]
  exact map_congr_mem l _ h hh

theorem appendIfIn_not_mem (tsIds : List String) (m : Message) (c : Client)
    (h : c.id ∉ tsIds) : appendIfIn tsIds m c = c := by
  unfold appendIfIn
  rw [if_neg h]

theorem appendIfIn_mem (tsIds : List String) (m : Message) (c : Client)
    (h : c.id ∈ tsIds) : appendIfIn tsIds m c = enqueue c m := by
  unfold appendIfIn
  rw [if_pos h]

/-- When every targeted client (with no duplicated target id) has queue
space, a broadcast fold leaves the registry exactly as it was and appends
exactly one copy of the message to each targeted client. -/
theorem sendFold_space (ts : List (Int × String)) (st : Hub) (m : Message)
    (hn : (ts.map Prod.snd).Nodup)
    (hs : ∀ t ∈ ts, ∀ c, connOf st t.2 = some c → c.send.length < c.sendCap) :
    (sendFold st ts m).clients = st.clients ∧
    (sendFold st ts m).conns = st.conns.map (appendIfIn (ts.map Prod.snd) m) := by
  induction ts generalizing st with
  | nil =>
    refine ⟨rfl, ?_⟩
    have heq : st.conns.map (appendIfIn (List.map Prod.snd ([] : List (Int × String))) m)
        = st.conns := by
      rw [map_congr_mem st.conns _ id (fun c _ => by simp [appendIfIn])]
      simp
    rw [heq]
    rfl
  | cons t rest ih =>
    simp only [List.map_cons, List.nodup_cons] at hn
    rw [sendFold_cons]
    simp only [List.map_cons]
    cases hfind : connOf st t.2 with
    | none =>
      rw [trySend_none st t.1 t.2 m hfind]
      have hnone := List.find?_eq_none.mp hfind
      obtain ⟨h1, h2⟩ := ih st hn.2 (fun t' ht' c hc => hs t' (by simp [ht']) c hc)
      refine ⟨h1, ?_⟩
      rw [h2]
      refine map_congr_mem _ _ _ (fun c hcm => ?_)
      have hne : ¬ (c.id = t.2) := by
        intro hh
        exact absurd (by simp [hh]) (hnone c hcm)
      by_cases hdr : c.id ∈ rest.map Prod.snd
      · rw [appendIfIn_mem _ m c hdr, appendIfIn_mem _ m c (List.mem_cons_of_mem _ hdr)]
      · rw [appendIfIn_not_mem _ m c hdr,
          appendIfIn_not_mem _ m c (by simp [List.mem_cons, hne, hdr])]
    | some c =>
      have hsp := hs t (by simp) c hfind
      rw [trySend_space st t.1 t.2 m c hfind hsp]
      set st1 : Hub := { st with conns := updateClient st.conns t.2 (fun d => enqueue d m) }
        with hst1
      have hfr : ∀ t' ∈ rest, ∀ c', connOf st1 t'.2 = some c' → connOf st t'.2 = some c' := by
        intro t' ht' c' hc'
        have hne : t'.2 ≠ t.2 := by
          intro hh
          exact hn.1 (by rw [← hh]; exact List.mem_map_of_mem Prod.snd ht')
        have hfr0 := trySend_frame st t.1 t.2 t'.2 m hne
        rw [trySend_space st t.1 t.2 m c hfind hsp] at hfr0
        rw [← hfr0]
        exact hc'
      obtain ⟨h1, h2⟩ :=
        ih st1 hn.2 (fun t' ht' c' hc' => hs t' (by simp [ht']) c' (hfr t' ht' c' hc'))
      refine ⟨h1, ?_⟩
      rw [h2]
      show (updateClient st.conns t.2 (fun d => enqueue d m)).map
            (appendIfIn (rest.map Prod.snd) m)
        = st.conns.map (appendIfIn (t.2 :: rest.map Prod.snd) m)
      unfold updateClient
      refine map_comp_pointwise st.conns _ _ _ (fun d _ => ?_)
      by_cases hd : d.id = t.2
      · have e1 : (if (d.id == t.2) then enqueue d m else d) = enqueue d m := by simp [hd]
        rw [e1, appendIfIn_not_mem _ m (enqueue d m)
            (by simpa [enqueue, hd] using hn.1),
          appendIfIn_mem _ m d (by simp [hd])]
      · have e1 : (if (d.id == t.2) then enqueue d m else d) = d := by simp [hd]
        rw [e1]
        by_cases hdr : d.id ∈ rest.map Prod.snd
        · rw [appendIfIn_mem _ m d hdr, appendIfIn_mem _ m d (List.mem_cons_of_mem _ hdr)]
        · rw [appendIfIn_not_mem _ m d hdr,
            appendIfIn_not_mem _ m d (by simp [List.mem_cons, hd, hdr])]

theorem sendFoldSub_cons (st : Hub) (t : Int × String) (ts : List (Int × String)) (m : Message) :
    sendFoldSub st (t :: ts) m = sendFoldSub (trySendSub st t.1 t.2 m) ts m := rfl

theorem sendFoldSub_append (st : Hub) (ts1 ts2 : List (Int × String)) (m : Message) :
    sendFoldSub st (ts1 ++ ts2) m = sendFoldSub (sendFoldSub st ts1 m) ts2 m := by
  simp [sendFoldSub, List.foldl_append]

theorem idsFold_eq (u : Int) (m : Message) (ids : List String) (s : Hub) :
    ids.foldl (fun s2 cid => trySend s2 u cid m) s
      = sendFold s (ids.map (fun cid => (u, cid))) m := by
  induction ids generalizing s with
  | nil => rfl
  | cons a rest ih =>
    rw [List.foldl_cons, List.map_cons, sendFold_cons]
    exact ih (trySend s u a m)

theorem idsFoldSub_eq (u : Int) (m : Message) (ids : List String) (s : Hub) :
    ids.foldl (fun s2 cid => trySendSub s2 u cid m) s
      = sendFoldSub s (ids.map (fun cid => (u, cid))) m := by
  induction ids generalizing s with
  | nil => rfl
  | cons a rest ih =>
    rw [List.foldl_cons, List.map_cons, sendFoldSub_cons]
    exact ih (trySendSub s u a m)

theorem entriesFold_eq (m : Message) (entries : List (Int × List String)) (s : Hub) :
    entries.foldl (fun s1 e => e.2.foldl (fun s2 cid => trySend s2 e.1 cid m) s1) s
      = sendFold s (targetsOf entries) m := by
  induction entries generalizing s with
  | nil => rfl
  | cons e rest ih =>
    rw [List.foldl_cons,
      show targetsOf (e :: rest) = e.2.map (fun cid => (e.1, cid)) ++ targetsOf rest from rfl,
      sendFold_append, ← idsFold_eq e.1 m e.2 s]
    exact ih _

theorem entriesFoldSub_eq (m : Message) (entries : List (Int × List String)) (s : Hub) :
    entries.foldl (fun s1 e => e.2.foldl (fun s2 cid => trySendSub s2 e.1 cid m) s1) s
      = sendFoldSub s (targetsOf entries) m := by
  induction entries generalizing s with
  | nil => rfl
  | cons e rest ih =>
    rw [List.foldl_cons,
      show targetsOf (e :: rest) = e.2.map (fun cid => (e.1, cid)) ++ targetsOf rest from rfl,
      sendFoldSub_append, ← idsFoldSub_eq e.1 m e.2 s]
    exact ih _

theorem skipEntriesFold_eq (uid : Int) (m : Message) (entries : List (Int × List String))
    (s : Hub) :
    entries.foldl
        (fun s1 e => if e.1 = uid then s1 else e.2.foldl (fun s2 cid => trySend s2 e.1 cid m) s1)
        s
      = sendFold s (targetsOf (entries.filter (fun e => !(e.1 == uid)))) m := by
  induction entries generalizing s with
  | nil => rfl
  | cons e rest ih =>
    rw [List.foldl_cons]
    by_cases h : e.1 = uid
    · rw [if_pos h]
      have hfil : List.filter (fun e2 => !(e2.1 == uid)) (e :: rest)
          = List.filter (fun e2 => !(e2.1 == uid)) rest := by
        rw [List.filter_cons]
        simp [h]
      rw [hfil]
      exact ih s
    · rw [if_neg h]
      have hfil : List.filter (fun e2 => !(e2.1 == uid)) (e :: rest)
          = e :: List.filter (fun e2 => !(e2.1 == uid)) rest := by
        rw [List.filter_cons]
        simp [h]
      rw [hfil,
        show targetsOf (e :: List.filter (fun e2 => !(e2.1 == uid)) rest)
          = e.2.map (fun cid => (e.1, cid))
            ++ targetsOf (List.filter (fun e2 => !(e2.1 == uid)) rest) from rfl,
        sendFold_append, ← idsFold_eq e.1 m e.2 s]
      exact ih _

theorem broadcastToAll_eq (st : Hub) (m : Message) :
    broadcastToAll st m = sendFold st (targetsOf st.clients) m := by
  unfold broadcastToAll
  exact entriesFold_eq m st.clients st

theorem broadcastToListSubscribers_eq (st : Hub) (m : Message) :
    broadcastToListSubscribers st m = sendFoldSub st (targetsOf st.clients) m := by
  unfold broadcastToListSubscribers
  exact entriesFoldSub_eq m st.clients st

theorem broadcastUserStatus_eq (st : Hub) (uid : Int) (ty : String) :
    broadcastUserStatus st uid ty
      = sendFold st (targetsOf (st.clients.filter (fun e => !(e.1 == uid))))
          (statusMessage uid ty) := by
  unfold broadcastUserStatus
  exact skipEntriesFold_eq uid (statusMessage uid ty) st.clients st

theorem targetsOf_map_snd (reg : List (Int × List String)) :
    (targetsOf reg).map Prod.snd = regIds reg := by
  induction reg with
  | nil => rfl
  | cons e rest ih =>
    rw [show targetsOf (e :: rest) = e.2.map (fun cid => (e.1, cid)) ++ targetsOf rest from rfl,
      List.map_append, List.map_map, ih,
      show regIds (e :: rest) = e.2 ++ regIds rest from rfl]
    congr 1
    simp [Function.comp]

theorem mem_targetsOf_of (reg : List (Int × List String)) (e : Int × List String)
    (he : e ∈ reg) (cid : String) (hc : cid ∈ e.2) : (e.1, cid) ∈ targetsOf reg := by
  induction reg with
  | nil => cases he
  | cons a rest ih =>
    rw [show targetsOf (a :: rest) = a.2.map (fun c => (a.1, c)) ++ targetsOf rest from rfl]
    cases he with
    | head => exact List.mem_append_left _ (List.mem_map_of_mem _ hc)
    | tail _ h => exact List.mem_append_right _ (ih h)

theorem mem_regIds (reg : List (Int × List String)) (x : String) :
    x ∈ regIds reg ↔ ∃ e ∈ reg, x ∈ e.2 := by
  induction reg with
  | nil => simp [regIds]
  | cons e rest ih =>
    rw [show regIds (e :: rest) = e.2 ++ regIds rest from rfl]
    simp [List.mem_append, ih]

theorem lookupIds_some_mem (reg : List (Int × List String)) (uid : Int) (ids : List String)
    (h : lookupIds reg uid = some ids) : ∃ e ∈ reg, e.1 = uid ∧ e.2 = ids := by
  unfold lookupIds at h
  cases hf : reg.find? (fun e => e.1 == uid) with
  | none => rw [hf] at h; cases h
  | some e =>
    rw [hf] at h
    have hmem := List.mem_of_find?_eq_some hf
    have hpred := List.find?_some hf
    refine ⟨e, hmem, by simpa using hpred, by injection h⟩

theorem regIds_sublist (l1 l2 : List (Int × List String)) (h : l1.Sublist l2) :
    (regIds l1).Sublist (regIds l2) := by
  induction h with
  | slnil => exact List.Sublist.refl _
  | cons e _ ih => exact ih.trans (List.sublist_append_right _ _)
  | cons₂ e _ ih => exact List.Sublist.append (List.Sublist.refl _) ih

theorem nodup_of_sublist {α : Type} (l1 l2 : List α) (h : l1.Sublist l2) (hn : l2.Nodup) :
    l1.Nodup := hn.sublist h

theorem regIds_filter_nodup (reg : List (Int × List String)) (p : Int × List String → Bool)
    (hn : (regIds reg).Nodup) : (regIds (reg.filter p)).Nodup :=
  nodup_of_sublist _ _ (regIds_sublist _ _ (List.filter_sublist reg)) hn

theorem filter_registryInsert (reg : List (Int × List String)) (u : Int) (cid : String) :
    (registryInsert reg u cid).filter (fun e => !(e.1 == u))
      = reg.filter (fun e => !(e.1 == u)) := by
  induction reg with
  | nil => simp [registryInsert]
  | cons e rest ih =>
    by_cases h : e.1 = u
    · rw [show registryInsert (e :: rest) u cid
          = (e.1, setInsert e.2 cid) :: rest from by simp [registryInsert, h]]
      rw [List.filter_cons, List.filter_cons]
      simp [h]
    · rw [show registryInsert (e :: rest) u cid
          = e :: registryInsert rest u cid from by simp [registryInsert, h]]
      rw [List.filter_cons, List.filter_cons]
      simp only [ih]

/-- C4 (amended): `registerClient` always publishes a `user_online` event
for the registering user — it is delivered to every other user's registered
client with queue space — whether or not that user already had a registered
client (the source has no first-connection check); no `user_offline` is
published.  Only `unregisterClient` is conditional (last client only). -/
theorem register_always_publishes_online (st : Hub) (u : Int) (cid : String)
    (du : Int) (dcid : String) (ids : List String) (d : Client)
    (hn : (regIds st.clients).Nodup)
    (hlk : lookupIds st.clients du = some ids) (hmem : dcid ∈ ids) (hdu : du ≠ u)
    (hc : connOf st dcid = some d) (hs : d.send.length < d.sendCap) :
    connOf (applyOp st (HubOp.register cid u)) dcid
      = some (enqueue d (statusMessage u MessageTypeUserOnline)) := by
  show connOf
      (broadcastUserStatus
        { clients := registryInsert st.clients u cid, conns := st.conns ++ [mkClient cid u] }
        u MessageTypeUserOnline) dcid = _
  set st2 : Hub :=
    { clients := registryInsert st.clients u cid, conns := st.conns ++ [mkClient cid u] }
    with hst2
  rw [broadcastUserStatus_eq st2 u MessageTypeUserOnline]
  have hfil : st2.clients.filter (fun e => !(e.1 == u))
      = st.clients.filter (fun e => !(e.1 == u)) := filter_registryInsert st.clients u cid
  rw [hfil]
  obtain ⟨e, he, he1, he2⟩ := lookupIds_some_mem st.clients du ids hlk
  have hef : e ∈ st.clients.filter (fun e2 => !(e2.1 == u)) :=
    List.mem_filter.mpr ⟨he, by simp [he1, hdu]⟩
  have hmem2 : (du, dcid) ∈ targetsOf (st.clients.filter (fun e2 => !(e2.1 == u))) := by
    rw [← he1]
    exact mem_targetsOf_of _ e hef dcid (by rw [he2]; exact hmem)
  have hn2 : ((targetsOf (st.clients.filter (fun e2 => !(e2.1 == u)))).map Prod.snd).Nodup := by
    rw [targetsOf_map_snd]
    exact regIds_filter_nodup st.clients _ hn
  have hc2 : connOf st2 dcid = some d :=
    connOf_appendConn st (registryInsert st.clients u cid) (mkClient cid u) dcid d hc
  exact sendFold_delivers _ st2 (statusMessage u MessageTypeUserOnline) du dcid d hn2 hmem2
    hc2 hs

theorem register_always_publishes_online_witness :
    connOf (applyOp hubC4 (HubOp.register "b" 1)) "c"
      = some (enqueue (mkClient "c" 2) (statusMessage 1 MessageTypeUserOnline)) :=
  register_always_publishes_online hubC4 1 "b" 2 "c" ["c"] (mkClient "c" 2)
    (by decide) rfl (by decide) (by decide) rfl (by decide)

/-- C5 (amended): on the internal register/unregister path,
`broadcastUserStatus` with subject user `u` enqueues the status event on
every other user's registered client with queue space, and skips every
registry entry of the subject user, so a client registered only under the
subject user receives nothing; but on the Router's `Broadcast` dispatch
path, `broadcastMessage` routes user-online/user-offline through
`broadcastToAll`, which delivers to every registered client with queue
space, including the subject user's own. -/
theorem status_dispatch_paths (st : Hub) (u : Int) (ty : String)
    (scid : String) (sc : Client) (du : Int) (dcid : String) (ids : List String)
    (d : Client) (bu : Int) (bcid : String) (bids : List String) (b : Client) (m : Message)
    (hn : (regIds st.clients).Nodup)
    (hsub : ∀ e ∈ st.clients, scid ∈ e.2 → e.1 = u)
    (hscc : connOf st scid = some sc)
    (hlk : lookupIds st.clients du = some ids) (hdmem : dcid ∈ ids) (hdu : du ≠ u)
    (hdc : connOf st dcid = some d) (hds : d.send.length < d.sendCap)
    (hblk : lookupIds st.clients bu = some bids) (hbmem : bcid ∈ bids)
    (hbc : connOf st bcid = some b) (hbs : b.send.length < b.sendCap)
    (hty : m.type = MessageTypeUserOnline ∨ m.type = MessageTypeUserOffline) :
    connOf (broadcastUserStatus st u ty) scid = some sc
    ∧ connOf (broadcastUserStatus st u ty) dcid = some (enqueue d (statusMessage u ty))
    ∧ connOf (broadcastMessage st m) bcid = some (enqueue b m) := by
  refine ⟨?_, ?_, ?_⟩
  · rw [broadcastUserStatus_eq st u ty]
    have hnot : scid ∉ (targetsOf (st.clients.filter (fun e => !(e.1 == u)))).map Prod.snd := by
      rw [targetsOf_map_snd]
      intro hmem'
      obtain ⟨e, he, he2⟩ := (mem_regIds _ scid).mp hmem'
      obtain ⟨hein, hepred⟩ := List.mem_filter.mp he
      have heu : e.1 = u := hsub e hein he2
      simp [heu] at hepred
    rw [sendFold_frame _ st (statusMessage u ty) scid hnot]
    exact hscc
  · rw [broadcastUserStatus_eq st u ty]
    obtain ⟨e, he, he1, he2⟩ := lookupIds_some_mem st.clients du ids hlk
    have hef : e ∈ st.clients.filter (fun e2 => !(e2.1 == u)) :=
      List.mem_filter.mpr ⟨he, by simp [he1, hdu]⟩
    have hmem2 : (du, dcid) ∈ targetsOf (st.clients.filter (fun e2 => !(e2.1 == u))) := by
      rw [← he1]
      exact mem_targetsOf_of _ e hef dcid (by rw [he2]; exact hdmem)
    have hn2 : ((targetsOf (st.clients.filter (fun e2 => !(e2.1 == u)))).map Prod.snd).Nodup := by
      rw [targetsOf_map_snd]
      exact regIds_filter_nodup st.clients _ hn
    exact sendFold_delivers _ st (statusMessage u ty) du dcid d hn2 hmem2 hdc hds
  · have hall : broadcastMessage st m = broadcastToAll st m := by
      unfold broadcastMessage
      cases hty with
      | inl h =>
        rw [h]
        simp [MessageTypeUserOnline, MessageTypeListUpdate, MessageTypeItemUpdate,
          MessageTypeShareUpdate, MessageTypeNotification, MessageTypeUserOffline]
      | inr h =>
        rw [h]
        simp [MessageTypeUserOnline, MessageTypeListUpdate, MessageTypeItemUpdate,
          MessageTypeShareUpdate, MessageTypeNotification, MessageTypeUserOffline]
    rw [hall, broadcastToAll_eq st m]
    obtain ⟨e, he, he1, he2⟩ := lookupIds_some_mem st.clients bu bids hblk
    have hmem2 : (bu, bcid) ∈ targetsOf st.clients := by
      rw [← he1]
      exact mem_targetsOf_of _ e he bcid (by rw [he2]; exact hbmem)
    have hn2 : ((targetsOf st.clients).map Prod.snd).Nodup := by
      rw [targetsOf_map_snd]
      exact hn
    exact sendFold_delivers _ st m bu bcid b hn2 hmem2 hbc hbs

/-- A hub where user 1 owns client "a" and user 2 owns client "c". -/
def hubC5b : Hub :=
  { clients := [(1, ["a"]), (2, ["c"])], conns := [mkClient "a" 1, mkClient "c" 2] }

theorem status_dispatch_paths_witness :
    connOf (broadcastUserStatus hubC5b 1 MessageTypeUserOnline) "a" = some (mkClient "a" 1)
    ∧ connOf (broadcastUserStatus hubC5b 1 MessageTypeUserOnline) "c"
        = some (enqueue (mkClient "c" 2) (statusMessage 1 MessageTypeUserOnline))
    ∧ connOf (broadcastMessage hubC5b (statusMessage 1 MessageTypeUserOnline)) "a"
        = some (enqueue (mkClient "a" 1) (statusMessage 1 MessageTypeUserOnline)) :=
  status_dispatch_paths hubC5b 1 MessageTypeUserOnline "a" (mkClient "a" 1) 2 "c" ["c"]
    (mkClient "c" 2) 1 "a" ["a"] (mkClient "a" 1) (statusMessage 1 MessageTypeUserOnline)
    (by decide) (by decide) rfl rfl (by decide) (by decide) rfl (by decide)
    rfl (by decide) rfl (by decide) (Or.inl rfl)

theorem find?_id_nodup (l : List Client) (hn : (l.map Client.id).Nodup) (d : Client)
    (hd : d ∈ l) : l.find? (fun c => c.id == d.id) = some d := by
  induction l with
  | nil => cases hd
  | cons a t ih =>
    simp only [List.map_cons, List.nodup_cons] at hn
    cases hd with
    | head => rw [List.find?_cons_of_pos _ (by simp)]
    | tail _ h =>
      have hbeq : (a.id == d.id) = false := by
        simp only [beq_eq_false_iff_ne, ne_eq]
        intro hh
        exact hn.1 (by rw [hh]; exact List.mem_map_of_mem Client.id h)
      rw [List.find?_cons, hbeq]
      exact ih hn.2 h

theorem connOf_unique (st : Hub) (hcn : (st.conns.map Client.id).Nodup) (x : String)
    (c d : Client) (hc : connOf st x = some c) (hd : d ∈ st.conns) (hid : d.id = x) :
    d = c := by
  have h1 := find?_id_nodup st.conns hcn d hd
  rw [hid] at h1
  rw [show connOf st x = st.conns.find? (fun c2 => c2.id == x) from rfl, h1] at hc
  injection hc

/-- Append the message to a client iff its id is targeted and it is
subscribed to the message's list. -/
def appendIfSub (tsIds : List String) (m : Message) (c : Client) : Client :=
  if c.id ∈ tsIds ∧ m.listID ∈ c.lists then enqueue c m else c

theorem appendIfSub_id (tsIds : List String) (m : Message) (c : Client) :
    (appendIfSub tsIds m c).id = c.id := by
  unfold appendIfSub
  by_cases h : c.id ∈ tsIds ∧ m.listID ∈ c.lists <;> simp [h, enqueue]

theorem trySendSub_none (st : Hub) (uid : Int) (cid : String) (m : Message)
    (h : connOf st cid = none) : trySendSub st uid cid m = st := by
  unfold trySendSub
  rw [h]

theorem trySendSub_some (st : Hub) (uid : Int) (cid : String) (m : Message) (c : Client)
    (h : connOf st cid = some c) :
    trySendSub st uid cid m = if m.listID ∈ c.lists then trySend st uid cid m else st := by
  unfold trySendSub
  rw [h]

/-- The subscriber-filtered analogue of `sendFold_space`: with unique client
ids, the registry is untouched and exactly the subscribed targeted clients
get exactly one copy of the message appended. -/
theorem sendFoldSub_space (ts : List (Int × String)) (st : Hub) (m : Message)
    (hn : (ts.map Prod.snd).Nodup)
    (hcn : (st.conns.map Client.id).Nodup)
    (hs : ∀ t ∈ ts, ∀ c, connOf st t.2 = some c → m.listID ∈ c.lists →
      c.send.length < c.sendCap) :
    (sendFoldSub st ts m).clients = st.clients ∧
    (sendFoldSub st ts m).conns = st.conns.map (appendIfSub (ts.map Prod.snd) m) := by
  induction ts generalizing st with
  | nil =>
    refine ⟨rfl, ?_⟩
    have heq : st.conns.map (appendIfSub (List.map Prod.snd ([] : List (Int × String))) m)
        = st.conns := by
      rw [map_congr_mem st.conns _ id (fun c _ => by simp [appendIfSub])]
      simp
    rw [heq]
    rfl
  | cons t rest ih =>
    simp only [List.map_cons, List.nodup_cons] at hn
    rw [sendFoldSub_cons]
    simp only [List.map_cons]
    cases hfind : connOf st t.2 with
    | none =>
      rw [trySendSub_none st t.1 t.2 m hfind]
      have hnone := List.find?_eq_none.mp hfind
      obtain ⟨h1, h2⟩ := ih st hn.2 hcn (fun t' ht' c hc hsub => hs t' (by simp [ht']) c hc hsub)
      refine ⟨h1, ?_⟩
      rw [h2]
      refine map_congr_mem _ _ _ (fun c hcm => ?_)
      have hne : ¬ (c.id = t.2) := by
        intro hh
        exact absurd (by simp [hh]) (hnone c hcm)
      by_cases hdr : c.id ∈ rest.map Prod.snd <;>
        by_cases hls : m.listID ∈ c.lists <;>
          simp [appendIfSub, List.mem_cons, hne, hdr, hls]
    | some c =>
      rw [trySendSub_some st t.1 t.2 m c hfind]
      by_cases hsubm : m.listID ∈ c.lists
      · rw [if_pos hsubm]
        have hsp := hs t (by simp) c hfind hsubm
        rw [trySend_space st t.1 t.2 m c hfind hsp]
        set st1 : Hub := { st with conns := updateClient st.conns t.2 (fun d => enqueue d m) }
          with hst1
        have hids : st1.conns.map Client.id = st.conns.map Client.id := by
          show (updateClient st.conns t.2 (fun d => enqueue d m)).map Client.id
            = st.conns.map Client.id
          unfold updateClient
          refine map_comp_pointwise st.conns _ _ _ (fun d _ => ?_)
          by_cases hd : d.id = t.2 <;> simp [hd, enqueue]
        have hfr : ∀ t' ∈ rest, ∀ c', connOf st1 t'.2 = some c' → connOf st t'.2 = some c' := by
          intro t' ht' c' hc'
          have hne : t'.2 ≠ t.2 := by
            intro hh
            exact hn.1 (by rw [← hh]; exact List.mem_map_of_mem Prod.snd ht')
          have hfr0 := trySend_frame st t.1 t.2 t'.2 m hne
          rw [trySend_space st t.1 t.2 m c hfind hsp] at hfr0
          rw [← hfr0]
          exact hc'
        obtain ⟨h1, h2⟩ := ih st1 hn.2 (by rw [hids]; exact hcn)
          (fun t' ht' c' hc' hsub => hs t' (by simp [ht']) c' (hfr t' ht' c' hc') hsub)
        refine ⟨h1, ?_⟩
        rw [h2]
        show (updateClient st.conns t.2 (fun d => enqueue d m)).map
              (appendIfSub (rest.map Prod.snd) m)
          = st.conns.map (appendIfSub (t.2 :: rest.map Prod.snd) m)
        unfold updateClient
        refine map_comp_pointwise st.conns _ _ _ (fun d hdm => ?_)
        by_cases hd : d.id = t.2
        · have hdc : d = c := connOf_unique st hcn t.2 c d hfind hdm hd
          have e1 : (if (d.id == t.2) then enqueue d m else d) = enqueue d m := by simp [hd]
          rw [e1, show appendIfSub (rest.map Prod.snd) m (enqueue d m) = enqueue d m from by
            unfold appendIfSub
            rw [if_neg]
            intro hcond
            exact hn.1 (by simpa [enqueue, hd] using hcond.1)]
          unfold appendIfSub
          rw [if_pos ⟨by simp [hd], by rw [hdc]; exact hsubm⟩]
        · have e1 : (if (d.id == t.2) then enqueue d m else d) = d := by simp [hd]
          rw [e1]
          by_cases hdr : d.id ∈ rest.map Prod.snd <;>
            by_cases hls : m.listID ∈ d.lists <;>
              simp [appendIfSub, List.mem_cons, hd, hdr, hls]
      · rw [if_neg hsubm]
        obtain ⟨h1, h2⟩ := ih st hn.2 hcn
          (fun t' ht' c' hc' hsub => hs t' (by simp [ht']) c' hc' hsub)
        refine ⟨h1, ?_⟩
        rw [h2]
        refine map_congr_mem _ _ _ (fun d hdm => ?_)
        by_cases hd : d.id = t.2
        · have hdc : d = c := connOf_unique st hcn t.2 c d hfind hdm hd
          have hdn : d.id ∉ rest.map Prod.snd := by rw [hd]; exact hn.1
          have hnosub : m.listID ∉ d.lists := by rw [hdc]; exact hsubm
          simp [appendIfSub, List.mem_cons, hd, hdn, hnosub]
        · by_cases hdr : d.id ∈ rest.map Prod.snd <;>
            by_cases hls : m.listID ∈ d.lists <;>
              simp [appendIfSub, List.mem_cons, hd, hdr, hls]

theorem mem_targetsOf (reg : List (Int × List String)) (t : Int × String)
    (ht : t ∈ targetsOf reg) : ∃ e ∈ reg, t.2 ∈ e.2 := by
  induction reg with
  | nil => cases ht
  | cons a rest ih =>
    rw [show targetsOf (a :: rest) = a.2.map (fun c => (a.1, c)) ++ targetsOf rest from rfl]
      at ht
    rcases List.mem_append.mp ht with h | h
    · obtain ⟨cid0, hcid0, heq⟩ := List.mem_map.mp h
      exact ⟨a, by simp, by rw [← heq]; exact hcid0⟩
    · obtain ⟨e, he, h2⟩ := ih h
      exact ⟨e, List.mem_cons_of_mem _ he, h2⟩

theorem clientSpaceOk_some (st : Hub) (m : Message) (cid : String) (c : Client)
    (h : connOf st cid = some c) :
    clientSpaceOk st m cid
      = (!(decide (m.listID ∈ c.lists)) || decide (c.send.length < c.sendCap)) := by
  unfold clientSpaceOk
  rw [h]

/-- C3: a list-update or item-update for list L is enqueued exactly once on
every registered client whose subscription set contains L (given queue
space for those clients), and is never enqueued on a client whose
subscription set does not contain L, regardless of which user owns which
client; unregistered clients are untouched too. -/
theorem list_scoped_delivery (st : Hub) (m : Message)
    (hty : m.type = MessageTypeListUpdate ∨ m.type = MessageTypeItemUpdate)
    (hids : (regIds st.clients).Nodup)
    (hcn : (st.conns.map Client.id).Nodup)
    (hspace : spaceForList st m = true)
    (cid : String) (c : Client) (hc : connOf st cid = some c) :
    connOf (broadcastMessage st m) cid
      = some (if cid ∈ regIds st.clients ∧ m.listID ∈ c.lists then enqueue c m else c) := by
  have hlist : broadcastMessage st m = broadcastToListSubscribers st m := by
    unfold broadcastMessage
    rw [if_pos hty]
  rw [hlist, broadcastToListSubscribers_eq st m]
  unfold spaceForList at hspace
  rw [List.all_eq_true] at hspace
  have hsp : ∀ t ∈ targetsOf st.clients, ∀ c2, connOf st t.2 = some c2 →
      m.listID ∈ c2.lists → c2.send.length < c2.sendCap := by
    intro t ht c2 hc2 hsub
    obtain ⟨e, he, hmem⟩ := mem_targetsOf st.clients t ht
    have hb := hspace e he
    rw [List.all_eq_true] at hb
    have hb2 := hb t.2 hmem
    simp only [clientSpaceOk_some st m t.2 c2 hc2, Bool.or_eq_true, Bool.not_eq_true',
      decide_eq_false_iff_not, decide_eq_true_eq] at hb2
    cases hb2 with
    | inl h0 => exact absurd hsub h0
    | inr h0 => exact h0
  obtain ⟨h1, h2⟩ := sendFoldSub_space (targetsOf st.clients) st m
    (by rw [targetsOf_map_snd]; exact hids) hcn hsp
  have hco : connOf (sendFoldSub st (targetsOf st.clients) m) cid
      = (st.conns.map (appendIfSub ((targetsOf st.clients).map Prod.snd) m)).find?
          (fun c2 => c2.id == cid) := by
    unfold connOf
    rw [h2]
  rw [hco, find_map_idpres st.conns cid _ (appendIfSub_id _ m),
    show st.conns.find? (fun c2 => c2.id == cid) = some c from hc]
  have hcid := (connOf_mem st cid c hc).2
  show some (appendIfSub ((targetsOf st.clients).map Prod.snd) m c) = _
  unfold appendIfSub
  rw [targetsOf_map_snd, hcid]

/-- A client of user 1 subscribed to list 7. -/
def subClientC3 : Client :=
  { id := "a", userID := 1, send := [], sendClosed := false, sendCap := 256, lists := [7] }

/-- A hub where user 1's client "a" is subscribed to list 7 and user 2's
client "b" is not. -/
def hubC3 : Hub :=
  { clients := [(1, ["a"]), (2, ["b"])], conns := [subClientC3, mkClient "b" 2] }

/-- An item-update event targeting list 7. -/
def itemMessageC3 : Message :=
  { type := MessageTypeItemUpdate, userID := 0, listID := 7, data := [] }

theorem list_scoped_delivery_witness :
    connOf (broadcastMessage hubC3 itemMessageC3) "a"
        = some (if "a" ∈ regIds hubC3.clients ∧ itemMessageC3.listID ∈ subClientC3.lists then
                  enqueue subClientC3 itemMessageC3
                else subClientC3)
    ∧ connOf (broadcastMessage hubC3 itemMessageC3) "b"
        = some (if "b" ∈ regIds hubC3.clients ∧ itemMessageC3.listID ∈ (mkClient "b" 2).lists then
                  enqueue (mkClient "b" 2) itemMessageC3
                else mkClient "b" 2) :=
  ⟨list_scoped_delivery hubC3 itemMessageC3 (Or.inr rfl) (by decide) (by decide) (by decide)
      "a" subClientC3 rfl,
    list_scoped_delivery hubC3 itemMessageC3 (Or.inr rfl) (by decide) (by decide) (by decide)
      "b" (mkClient "b" 2) rfl⟩

/-! ### Registry lemmas for the membership invariant -/

theorem lookupIds_cons_pos (e : Int × List String) (rest : List (Int × List String)) (u : Int)
    (h : e.1 = u) : lookupIds (e :: rest) u = some e.2 := by
  unfold lookupIds
  rw [List.find?_cons, show (e.1 == u) = true from by simp [h]]

theorem lookupIds_cons_neg (e : Int × List String) (rest : List (Int × List String)) (u : Int)
    (h : ¬ (e.1 = u)) : lookupIds (e :: rest) u = lookupIds rest u := by
  unfold lookupIds
  rw [List.find?_cons, show (e.1 == u) = false from by simp [h]]

theorem setInsert_ne_nil {α : Type} [DecidableEq α] (l : List α) (a : α) :
    setInsert l a ≠ [] := by
  unfold setInsert
  by_cases h : a ∈ l
  · rw [if_pos h]
    intro hl
    rw [hl] at h
    cases h
  · rw [if_neg h]
    simp

theorem lookupIds_registryInsert (reg : List (Int × List String)) (uid : Int) (cid : String)
    (u : Int) :
    lookupIds (registryInsert reg uid cid) u =
      if u = uid then some (setInsert ((lookupIds reg uid).getD []) cid)
      else lookupIds reg u := by
  induction reg with
  | nil =>
    by_cases h : u = uid
    · subst h
      rw [show registryInsert [] u cid = [(u, [cid])] from rfl,
        lookupIds_cons_pos _ _ _ rfl, if_pos rfl]
      rfl
    · rw [show registryInsert [] uid cid = [(uid, [cid])] from rfl,
        lookupIds_cons_neg _ _ _ (fun hh => h hh.symm), if_neg h]
  | cons e rest ih =>
    by_cases he : e.1 = uid
    · rw [show registryInsert (e :: rest) uid cid = (e.1, setInsert e.2 cid) :: rest from by
        simp [registryInsert, he]]
      by_cases hu : u = uid
      · rw [lookupIds_cons_pos _ _ _ (by rw [he, hu]), if_pos hu,
          lookupIds_cons_pos e rest uid he]
        rfl
      · rw [lookupIds_cons_neg _ _ _ (by rw [he]; exact fun hh => hu hh.symm), if_neg hu,
          lookupIds_cons_neg e rest u (by rw [he]; exact fun hh => hu hh.symm)]
    · rw [show registryInsert (e :: rest) uid cid = e :: registryInsert rest uid cid from by
        simp [registryInsert, he]]
      by_cases hu2 : e.1 = u
      · have hne : ¬ (u = uid) := fun hh => he (by rw [hu2, hh])
        rw [lookupIds_cons_pos _ _ _ hu2, if_neg hne, lookupIds_cons_pos _ _ _ hu2]
      · rw [lookupIds_cons_neg _ _ _ hu2, ih]
        by_cases hu : u = uid
        · rw [if_pos hu, if_pos hu, lookupIds_cons_neg e rest uid he]
        · rw [if_neg hu, if_neg hu, lookupIds_cons_neg e rest u hu2]

theorem lookupIds_eq_none_of_not_mem (reg : List (Int × List String)) (u : Int)
    (h : u ∉ regKeys reg) : lookupIds reg u = none := by
  induction reg with
  | nil => rfl
  | cons e rest ih =>
    simp only [regKeys, List.map_cons, List.mem_cons, not_or] at h
    rw [lookupIds_cons_neg e rest u (fun hh => h.1 hh.symm)]
    exact ih (by simpa [regKeys] using h.2)

theorem lookupIds_registryErase (reg : List (Int × List String)) (uid : Int) (cid : String)
    (u : Int) (hkeys : (regKeys reg).Nodup) :
    lookupIds (registryErase reg uid cid) u =
      if u = uid then
        (match lookupIds reg uid with
          | none => none
          | some ids => if ids.erase cid = [] then none else some (ids.erase cid))
      else lookupIds reg u := by
  induction reg with
  | nil =>
    by_cases h : u = uid
    · rw [show registryErase [] uid cid = [] from rfl, if_pos h]
      rfl
    · rw [show registryErase [] uid cid = [] from rfl, if_neg h]
  | cons e rest ih =>
    simp only [regKeys, List.map_cons, List.nodup_cons] at hkeys
    by_cases he : e.1 = uid
    · rw [show registryErase (e :: rest) uid cid
          = (if e.2.erase cid = [] then rest else (e.1, e.2.erase cid) :: rest) from by
        simp [registryErase, he]]
      by_cases hemp : e.2.erase cid = []
      · rw [if_pos hemp]
        by_cases hu : u = uid
        · rw [if_pos hu, lookupIds_cons_pos e rest uid he]
          have hnone : lookupIds rest u = none := by
            refine lookupIds_eq_none_of_not_mem rest u ?_
            rw [hu, ← he]
            simpa [regKeys] using hkeys.1
          rw [hnone]
          simp [hemp]
        · rw [if_neg hu, lookupIds_cons_neg e rest u (by rw [he]; exact fun hh => hu hh.symm)]
      · rw [if_neg hemp]
        by_cases hu : u = uid
        · rw [if_pos hu, lookupIds_cons_pos (e.1, e.2.erase cid) rest u (by rw [he, hu]),
            lookupIds_cons_pos e rest uid he]
          simp [hemp]
        · rw [if_neg hu,
            lookupIds_cons_neg (e.1, e.2.erase cid) rest u
              (by rw [he]; exact fun hh => hu hh.symm),
            lookupIds_cons_neg e rest u (by rw [he]; exact fun hh => hu hh.symm)]
    · rw [show registryErase (e :: rest) uid cid = e :: registryErase rest uid cid from by
        simp [registryErase, he]]
      by_cases hu2 : e.1 = u
      · have hne : ¬ (u = uid) := fun hh => he (by rw [hu2, hh])
        rw [lookupIds_cons_pos _ _ _ hu2, if_neg hne, lookupIds_cons_pos _ _ _ hu2]
      · rw [lookupIds_cons_neg _ _ _ hu2, ih (by simpa [regKeys] using hkeys.2)]
        by_cases hu : u = uid
        · rw [if_pos hu, if_pos hu, lookupIds_cons_neg e rest uid he]
        · rw [if_neg hu, if_neg hu, lookupIds_cons_neg e rest u hu2]

theorem regKeys_registryInsert (reg : List (Int × List String)) (uid : Int) (cid : String) :
    regKeys (registryInsert reg uid cid)
      = if uid ∈ regKeys reg then regKeys reg else regKeys reg ++ [uid] := by
  induction reg with
  | nil => simp [registryInsert, regKeys]
  | cons e rest ih =>
    by_cases he : e.1 = uid
    · rw [show registryInsert (e :: rest) uid cid = (e.1, setInsert e.2 cid) :: rest from by
        simp [registryInsert, he]]
      rw [if_pos (by simp [regKeys, he])]
      simp [regKeys]
    · rw [show registryInsert (e :: rest) uid cid = e :: registryInsert rest uid cid from by
        simp [registryInsert, he]]
      by_cases hm : uid ∈ regKeys rest
      · rw [if_pos (by simp [regKeys]; right; simpa [regKeys] using hm)]
        simp only [regKeys, List.map_cons]
        rw [show regKeys (registryInsert rest uid cid) = List.map Prod.fst (registryInsert rest uid cid) from rfl] at ih
        rw [show (regKeys rest : List Int) = List.map Prod.fst rest from rfl] at ih
        rw [ih, if_pos (by simpa [regKeys] using hm)]
      · rw [if_neg (by
          simp only [regKeys, List.map_cons, List.mem_cons, not_or]
          exact ⟨fun hh => he hh.symm, by simpa [regKeys] using hm⟩)]
        simp only [regKeys, List.map_cons]
        rw [show regKeys (registryInsert rest uid cid) = List.map Prod.fst (registryInsert rest uid cid) from rfl] at ih
        rw [show (regKeys rest : List Int) = List.map Prod.fst rest from rfl] at ih
        rw [ih, if_neg (by simpa [regKeys] using hm)]
        simp

theorem nodup_snoc {α : Type} (l : List α) (a : α) (hm : a ∉ l) (hn : l.Nodup) :
    (l ++ [a]).Nodup := by
  induction l with
  | nil => simp
  | cons b t ih =>
    simp only [List.nodup_cons] at hn
    simp only [List.cons_append, List.nodup_cons]
    refine ⟨?_, ih (fun hh => hm (List.mem_cons_of_mem _ hh)) hn.2⟩
    intro hmem
    rcases List.mem_append.mp hmem with h1 | h2
    · exact hn.1 h1
    · have hba : b = a := by simpa using h2
      exact hm (by rw [← hba]; exact List.mem_cons_self b t)

theorem regKeys_insert_nodup (reg : List (Int × List String)) (uid : Int) (cid : String)
    (hn : (regKeys reg).Nodup) : (regKeys (registryInsert reg uid cid)).Nodup := by
  rw [regKeys_registryInsert]
  by_cases hm : uid ∈ regKeys reg
  · rw [if_pos hm]
    exact hn
  · rw [if_neg hm]
    exact nodup_snoc _ uid hm hn

theorem regKeys_registryErase_sublist (reg : List (Int × List String)) (uid : Int)
    (cid : String) : (regKeys (registryErase reg uid cid)).Sublist (regKeys reg) := by
  induction reg with
  | nil => exact List.Sublist.refl _
  | cons e rest ih =>
    by_cases he : e.1 = uid
    · rw [show registryErase (e :: rest) uid cid
          = (if e.2.erase cid = [] then rest else (e.1, e.2.erase cid) :: rest) from by
        simp [registryErase, he]]
      by_cases hemp : e.2.erase cid = []
      · rw [if_pos hemp]
        exact (List.Sublist.refl _).cons e.1
      · rw [if_neg hemp]
        exact List.Sublist.refl _
    · rw [show registryErase (e :: rest) uid cid = e :: registryErase rest uid cid from by
        simp [registryErase, he]]
      exact ih.cons₂ e.1

theorem regIds_registryErase_sublist (reg : List (Int × List String)) (uid : Int)
    (cid : String) : (regIds (registryErase reg uid cid)).Sublist (regIds reg) := by
  induction reg with
  | nil => exact List.Sublist.refl _
  | cons e rest ih =>
    by_cases he : e.1 = uid
    · rw [show registryErase (e :: rest) uid cid
          = (if e.2.erase cid = [] then rest else (e.1, e.2.erase cid) :: rest) from by
        simp [registryErase, he]]
      by_cases hemp : e.2.erase cid = []
      · rw [if_pos hemp]
        exact List.sublist_append_right e.2 (regIds rest)
      · rw [if_neg hemp,
          show regIds ((e.1, e.2.erase cid) :: rest) = e.2.erase cid ++ regIds rest from rfl,
          show regIds (e :: rest) = e.2 ++ regIds rest from rfl]
        exact List.Sublist.append (List.erase_sublist cid e.2) (List.Sublist.refl _)
    · rw [show registryErase (e :: rest) uid cid = e :: registryErase rest uid cid from by
        simp [registryErase, he],
        show regIds (e :: registryErase rest uid cid)
          = e.2 ++ regIds (registryErase rest uid cid) from rfl,
        show regIds (e :: rest) = e.2 ++ regIds rest from rfl]
      exact List.Sublist.append (List.Sublist.refl _) ih

theorem regIds_cons (e : Int × List String) (rest : List (Int × List String)) :
    regIds (e :: rest) = e.2 ++ regIds rest := rfl

theorem regIds_registryInsert_mem (reg : List (Int × List String)) (uid : Int) (cid : String)
    (x : String) (hx : x ∈ regIds (registryInsert reg uid cid)) :
    x ∈ regIds reg ∨ x = cid := by
  induction reg with
  | nil =>
    rw [show registryInsert [] uid cid = [(uid, [cid])] from rfl] at hx
    right
    simpa [regIds] using hx
  | cons e rest ih =>
    rw [regIds_cons]
    by_cases he : e.1 = uid
    · rw [show registryInsert (e :: rest) uid cid = (e.1, setInsert e.2 cid) :: rest from by
        simp [registryInsert, he], regIds_cons] at hx
      rcases List.mem_append.mp hx with h1 | h2
      · unfold setInsert at h1
        by_cases hc : cid ∈ e.2
        · rw [if_pos hc] at h1
          exact Or.inl (List.mem_append_left _ h1)
        · rw [if_neg hc] at h1
          rcases List.mem_append.mp h1 with h3 | h4
          · exact Or.inl (List.mem_append_left _ h3)
          · exact Or.inr (by simpa using h4)
      · exact Or.inl (List.mem_append_right _ h2)
    · rw [show registryInsert (e :: rest) uid cid = e :: registryInsert rest uid cid from by
        simp [registryInsert, he], regIds_cons] at hx
      rcases List.mem_append.mp hx with h1 | h2
      · exact Or.inl (List.mem_append_left _ h1)
      · rcases ih h2 with h3 | h4
        · exact Or.inl (List.mem_append_right _ h3)
        · exact Or.inr h4

theorem regIds_registryInsert_nodup (reg : List (Int × List String)) (uid : Int) (cid : String)
    (hfresh : cid ∉ regIds reg) (hn : (regIds reg).Nodup) :
    (regIds (registryInsert reg uid cid)).Nodup := by
  induction reg with
  | nil => simp [registryInsert, regIds]
  | cons e rest ih =>
    rw [regIds_cons] at hfresh hn
    have hfe : cid ∉ e.2 := fun hh => hfresh (List.mem_append_left _ hh)
    have hfr : cid ∉ regIds rest := fun hh => hfresh (List.mem_append_right _ hh)
    by_cases he : e.1 = uid
    · rw [show registryInsert (e :: rest) uid cid = (e.1, setInsert e.2 cid) :: rest from by
        simp [registryInsert, he], regIds_cons]
      unfold setInsert
      rw [if_neg hfe, List.append_assoc,
        show ([cid] ++ regIds rest : List String) = cid :: regIds rest from rfl]
      rw [List.nodup_middle, List.nodup_cons]
      exact ⟨hfresh, hn⟩
    · rw [show registryInsert (e :: rest) uid cid = e :: registryInsert rest uid cid from by
        simp [registryInsert, he], regIds_cons]
      rw [List.nodup_append] at hn
      rw [List.nodup_append]
      refine ⟨hn.1, ih hfr hn.2.1, ?_⟩
      intro x hx1 hx2
      rcases regIds_registryInsert_mem rest uid cid x hx2 with h3 | h4
      · exact hn.2.2 hx1 h3
      · rw [h4] at hx1
        exact hfe hx1

/-- All registered clients have bounded queues and the 256-slot capacity
that `ServeWS` creates. -/
def ConnsBound (st : Hub) (k : Nat) : Prop :=
  ∀ c ∈ st.conns, c.send.length ≤ k ∧ c.sendCap = 256

theorem connsBound_mono (st : Hub) (k1 k2 : Nat) (h : ConnsBound st k1) (hk : k1 ≤ k2) :
    ConnsBound st k2 := by
  intro c hc
  obtain ⟨h1, h2⟩ := h c hc
  exact ⟨le_trans h1 hk, h2⟩

/-- When every client queue is strictly below its (256) capacity, a status
broadcast leaves the registry untouched and grows each queue by at most
one message. -/
theorem broadcastUserStatus_bounded (st : Hub) (uid : Int) (ty : String) (k : Nat)
    (hb : ConnsBound st k) (hk : k < 256) (hn : (regIds st.clients).Nodup) :
    (broadcastUserStatus st uid ty).clients = st.clients ∧
    ConnsBound (broadcastUserStatus st uid ty) (k + 1) := by
  rw [broadcastUserStatus_eq]
  have hn2 : ((targetsOf (st.clients.filter (fun e => !(e.1 == uid)))).map Prod.snd).Nodup := by
    rw [targetsOf_map_snd]
    exact regIds_filter_nodup _ _ hn
  have hs : ∀ t ∈ targetsOf (st.clients.filter (fun e => !(e.1 == uid))), ∀ c,
      connOf st t.2 = some c → c.send.length < c.sendCap := by
    intro t ht c hc
    have hcm := (connOf_mem st t.2 c hc).1
    obtain ⟨h1, h2⟩ := hb c hcm
    rw [h2]
    omega
  obtain ⟨h1, h2⟩ := sendFold_space _ st (statusMessage uid ty) hn2 hs
  refine ⟨h1, ?_⟩
  intro c hcmem
  rw [h2] at hcmem
  obtain ⟨d, hd, hde⟩ := List.mem_map.mp hcmem
  obtain ⟨hb1, hb2⟩ := hb d hd
  by_cases hdi : d.id ∈ (targetsOf (st.clients.filter (fun e => !(e.1 == uid)))).map Prod.snd
  · rw [appendIfIn_mem _ _ _ hdi] at hde
    rw [← hde]
    refine ⟨?_, hb2⟩
    simp only [enqueue, List.length_append, List.length_cons, List.length_nil]
    omega
  · rw [appendIfIn_not_mem _ _ _ hdi] at hde
    rw [← hde]
    exact ⟨le_trans hb1 (Nat.le_succ k), hb2⟩

theorem unregisterClient_lookup_none (st : Hub) (uid : Int) (cid : String)
    (h : lookupIds st.clients uid = none) : unregisterClient st uid cid = st := by
  unfold unregisterClient
  rw [h]

theorem unregisterClient_lookup_some (st : Hub) (uid : Int) (cid : String) (ids : List String)
    (h : lookupIds st.clients uid = some ids) :
    unregisterClient st uid cid =
      if cid ∈ ids then
        (if ids.erase cid = [] then
          broadcastUserStatus
            { clients := registryErase st.clients uid cid,
              conns := updateClient st.conns cid closeSend } uid MessageTypeUserOffline
        else
          { clients := registryErase st.clients uid cid,
            conns := updateClient st.conns cid closeSend })
      else st := by
  unfold unregisterClient
  rw [h]

theorem mem_regCids (ops : List HubOp) (cid : String) (uid : Int)
    (h : HubOp.register cid uid ∈ ops) : cid ∈ regCids ops := by
  induction ops with
  | nil => cases h
  | cons op rest ih =>
    cases h with
    | head => simp [regCids]
    | tail _ h0 =>
      cases op with
      | register cid2 uid2 => exact List.mem_cons_of_mem _ (ih h0)
      | unregister cid2 uid2 => exact ih h0

theorem lookupIds_registryInsert_self (reg : List (Int × List String)) (uid : Int)
    (cid : String) :
    lookupIds (registryInsert reg uid cid) uid
      = some (setInsert ((lookupIds reg uid).getD []) cid) := by
  rw [lookupIds_registryInsert, if_pos rfl]

theorem lookupIds_registryInsert_other (reg : List (Int × List String)) (uid : Int)
    (cid : String) (u : Int) (h : ¬ (u = uid)) :
    lookupIds (registryInsert reg uid cid) u = lookupIds reg u := by
  rw [lookupIds_registryInsert, if_neg h]

theorem lookupIds_registryErase_self_some (reg : List (Int × List String)) (uid : Int)
    (cid : String) (ids : List String) (hkeys : (regKeys reg).Nodup)
    (h : lookupIds reg uid = some ids) :
    lookupIds (registryErase reg uid cid) uid
      = if ids.erase cid = [] then none else some (ids.erase cid) := by
  rw [lookupIds_registryErase reg uid cid uid hkeys, if_pos rfl, h]

theorem lookupIds_registryErase_other (reg : List (Int × List String)) (uid : Int)
    (cid : String) (u : Int) (hkeys : (regKeys reg).Nodup) (h : ¬ (u = uid)) :
    lookupIds (registryErase reg uid cid) u = lookupIds reg u := by
  rw [lookupIds_registryErase reg uid cid u hkeys, if_neg h]

/-- The induction behind the registry membership invariant: starting from a
bounded, duplicate-free, spec-related state, running the remaining
register/unregister requests preserves the relation between the registry
and the spec-side accumulator. -/
theorem runOps_aux (ops : List HubOp) (st : Hub) (acc : Int → List String) (k : Nat)
    (hk : k + ops.length ≤ 256)
    (hbound : ConnsBound st k)
    (hkeys : (regKeys st.clients).Nodup)
    (hids : (regIds st.clients).Nodup)
    (hrel : ∀ u, lookupIds st.clients u = if acc u = [] then none else some (acc u))
    (hfresh : ∀ cid uid, HubOp.register cid uid ∈ ops → cid ∉ regIds st.clients)
    (hnodup : (regCids ops).Nodup) :
    ∀ u, lookupIds (ops.foldl applyOp st).clients u
      = if (ops.foldl specStep acc) u = [] then none
        else some ((ops.foldl specStep acc) u) := by
  induction ops generalizing st acc k with
  | nil => exact hrel
  | cons op rest ih =>
    simp only [List.foldl_cons]
    have hk255 : k < 256 := by
      simp only [List.length_cons] at hk
      omega
    have hkrest : (k + 1) + rest.length ≤ 256 := by
      simp only [List.length_cons] at hk
      omega
    cases op with
    | register cid uid =>
      have happ : applyOp st (HubOp.register cid uid)
          = broadcastUserStatus
              { clients := registryInsert st.clients uid cid,
                conns := st.conns ++ [mkClient cid uid] } uid MessageTypeUserOnline := rfl
      set st1 : Hub :=
        { clients := registryInsert st.clients uid cid,
          conns := st.conns ++ [mkClient cid uid] } with hst1
      have hfhead : cid ∉ regIds st.clients := hfresh cid uid (List.mem_cons_self _ _)
      have hids1 : (regIds st1.clients).Nodup :=
        regIds_registryInsert_nodup st.clients uid cid hfhead hids
      have hbound1 : ConnsBound st1 k := by
        intro c hc
        rcases List.mem_append.mp hc with h1 | h2
        · exact hbound c h1
        · have hcm : c = mkClient cid uid := by simpa using h2
          rw [hcm]
          exact ⟨Nat.zero_le k, rfl⟩
      obtain ⟨hcl2, hbound2⟩ := broadcastUserStatus_bounded st1 uid MessageTypeUserOnline k
        hbound1 hk255 hids1
      rw [happ]
      have hnodup2 : (regCids rest).Nodup ∧ cid ∉ regCids rest := by
        rw [show regCids (HubOp.register cid uid :: rest) = cid :: regCids rest from rfl,
          List.nodup_cons] at hnodup
        exact ⟨hnodup.2, hnodup.1⟩
      refine ih (broadcastUserStatus st1 uid MessageTypeUserOnline)
        (specStep acc (HubOp.register cid uid)) (k + 1) hkrest hbound2 ?_ ?_ ?_ ?_ hnodup2.1
      · rw [hcl2]
        exact regKeys_insert_nodup st.clients uid cid hkeys
      · rw [hcl2]
        exact hids1
      · intro u
        rw [hcl2]
        show lookupIds (registryInsert st.clients uid cid) u = _
        by_cases hu : u = uid
        · subst hu
          rw [lookupIds_registryInsert_self]
          have hacc : (lookupIds st.clients u).getD [] = acc u := by
            rw [hrel u]
            by_cases ha : acc u = []
            · rw [if_pos ha, ha]
              rfl
            · rw [if_neg ha]
              rfl
          rw [hacc]
          have hstep : (specStep acc (HubOp.register cid u)) u = setInsert (acc u) cid := by
            simp [specStep]
          rw [hstep, if_neg (setInsert_ne_nil (acc u) cid)]
        · rw [lookupIds_registryInsert_other st.clients uid cid u hu]
          have hstep : (specStep acc (HubOp.register cid uid)) u = acc u := by
            simp [specStep, hu]
          rw [hstep]
          exact hrel u
      · intro cid2 uid2 hm2
        rw [hcl2]
        intro hmem2
        rcases regIds_registryInsert_mem st.clients uid cid cid2 hmem2 with h3 | h4
        · exact hfresh cid2 uid2 (List.mem_cons_of_mem _ hm2) h3
        · have hc2 : cid2 ∈ regCids rest := mem_regCids rest cid2 uid2 hm2
          rw [h4] at hc2
          exact hnodup2.2 hc2
    | unregister cid uid =>
      have happ : applyOp st (HubOp.unregister cid uid) = unregisterClient st uid cid := rfl
      rw [happ]
      have hnodup1 : (regCids rest).Nodup := by
        rw [show regCids (HubOp.unregister cid uid :: rest) = regCids rest from rfl] at hnodup
        exact hnodup
      cases hlk : lookupIds st.clients uid with
      | none =>
        rw [unregisterClient_lookup_none st uid cid hlk]
        have hacc : acc uid = [] := by
          have hr := hrel uid
          rw [hlk] at hr
          by_cases ha : acc uid = []
          · exact ha
          · rw [if_neg ha] at hr
            cases hr
        refine ih st (specStep acc (HubOp.unregister cid uid)) (k + 1) hkrest
          (connsBound_mono st k (k + 1) hbound (Nat.le_succ k)) hkeys hids ?_ ?_ hnodup1
        · intro u
          by_cases hu : u = uid
          · subst hu
            have hstep : (specStep acc (HubOp.unregister cid u)) u = [] := by
              simp [specStep, hacc]
            rw [hstep, if_pos rfl, hlk]
          · have hstep : (specStep acc (HubOp.unregister cid uid)) u = acc u := by
              simp [specStep, hu]
            rw [hstep]
            exact hrel u
        · exact fun cid2 uid2 hm2 => hfresh cid2 uid2 (List.mem_cons_of_mem _ hm2)
      | some ids =>
        rw [unregisterClient_lookup_some st uid cid ids hlk]
        have hacc : acc uid = ids := by
          have hr := hrel uid
          rw [hlk] at hr
          by_cases ha : acc uid = []
          · rw [if_pos ha] at hr
            cases hr
          · rw [if_neg ha] at hr
            injection hr with hr2
            exact hr2.symm
        by_cases hcm : cid ∈ ids
        · rw [if_pos hcm]
          set st1 : Hub :=
            { clients := registryErase st.clients uid cid,
              conns := updateClient st.conns cid closeSend } with hst1
          have hbound1 : ConnsBound st1 k := by
            intro c hc
            obtain ⟨d, hd, hde⟩ := List.mem_map.mp hc
            obtain ⟨h1, h2⟩ := hbound d hd
            rw [← hde]
            by_cases hdc : d.id = cid
            · rw [show (if (d.id == cid) then closeSend d else d) = closeSend d from by
                simp [hdc]]
              exact ⟨h1, h2⟩
            · rw [show (if (d.id == cid) then closeSend d else d) = d from by simp [hdc]]
              exact ⟨h1, h2⟩
          have hkeys1 : (regKeys st1.clients).Nodup :=
            nodup_of_sublist _ _ (regKeys_registryErase_sublist st.clients uid cid) hkeys
          have hids1 : (regIds st1.clients).Nodup :=
            nodup_of_sublist _ _ (regIds_registryErase_sublist st.clients uid cid) hids
          have hrel1 : ∀ u, lookupIds st1.clients u
              = if (specStep acc (HubOp.unregister cid uid)) u = [] then none
                else some ((specStep acc (HubOp.unregister cid uid)) u) := by
            intro u
            show lookupIds (registryErase st.clients uid cid) u = _
            by_cases hu : u = uid
            · subst hu
              rw [lookupIds_registryErase_self_some st.clients u cid ids hkeys hlk]
              have hstep : (specStep acc (HubOp.unregister cid u)) u = ids.erase cid := by
                simp [specStep, hacc]
              rw [hstep]
            · rw [lookupIds_registryErase_other st.clients uid cid u hkeys hu]
              have hstep : (specStep acc (HubOp.unregister cid uid)) u = acc u := by
                simp [specStep, hu]
              rw [hstep]
              exact hrel u
          have hfresh1 : ∀ cid2 uid2, HubOp.register cid2 uid2 ∈ rest →
              cid2 ∉ regIds st1.clients := by
            intro cid2 uid2 hm2 hmem2
            exact hfresh cid2 uid2 (List.mem_cons_of_mem _ hm2)
              ((regIds_registryErase_sublist st.clients uid cid).subset hmem2)
          by_cases hemp : ids.erase cid = []
          · rw [if_pos hemp]
            obtain ⟨hcl2, hbound2⟩ := broadcastUserStatus_bounded st1 uid
              MessageTypeUserOffline k hbound1 hk255 hids1
            refine ih (broadcastUserStatus st1 uid MessageTypeUserOffline)
              (specStep acc (HubOp.unregister cid uid)) (k + 1) hkrest hbound2 ?_ ?_ ?_ ?_
              hnodup1
            · rw [hcl2]
              exact hkeys1
            · rw [hcl2]
              exact hids1
            · intro u
              rw [hcl2]
              exact hrel1 u
            · intro cid2 uid2 hm2
              rw [hcl2]
              exact hfresh1 cid2 uid2 hm2
          · rw [if_neg hemp]
            exact ih st1 (specStep acc (HubOp.unregister cid uid)) (k + 1) hkrest
              (connsBound_mono st1 k (k + 1) hbound1 (Nat.le_succ k)) hkeys1 hids1 hrel1
              hfresh1 hnodup1
        · rw [if_neg hcm]
          refine ih st (specStep acc (HubOp.unregister cid uid)) (k + 1) hkrest
            (connsBound_mono st k (k + 1) hbound (Nat.le_succ k)) hkeys hids ?_ ?_ hnodup1
          · intro u
            by_cases hu : u = uid
            · subst hu
              have hstep : (specStep acc (HubOp.unregister cid u)) u = acc u := by
                simp [specStep, hacc, List.erase_of_not_mem hcm]
              rw [hstep]
              exact hrel u
            · have hstep : (specStep acc (HubOp.unregister cid uid)) u = acc u := by
                simp [specStep, hu]
              rw [hstep]
              exact hrel u
          · exact fun cid2 uid2 hm2 => hfresh cid2 uid2 (List.mem_cons_of_mem _ hm2)

/-- C2: after any finite sequence of register/unregister requests (with
pairwise-distinct client ids across registrations, and at most 256 requests
so that no 256-slot outbound queue can overflow and force an implicit
drop), the hub registry maps every user id to exactly the list of client
ids registered and not yet unregistered for that user, and a user whose
list is empty has no entry in the registry at all. -/
theorem registry_membership (ops : List HubOp)
    (h1 : (regCids ops).Nodup) (h2 : ops.length ≤ 256) :
    ∀ u, lookupIds (runOps ops).clients u
      = if specRegistered ops u = [] then none else some (specRegistered ops u) := by
  unfold runOps specRegistered newHub
  refine runOps_aux ops { clients := [], conns := [] } (fun _ => []) 0 (by omega)
    (fun c hc => absurd hc (List.not_mem_nil c)) (by simp [regKeys]) List.nodup_nil
    (fun u => rfl) (fun cid uid _ hmem => absurd hmem (List.not_mem_nil cid)) h1

/-- A sample request sequence: two users connect, then user 1 disconnects. -/
def opsC2 : List HubOp :=
  [HubOp.register "a" 1, HubOp.register "b" 2, HubOp.unregister "a" 1]

theorem registry_membership_witness :
    lookupIds (runOps opsC2).clients 1
      = if specRegistered opsC2 1 = [] then none else some (specRegistered opsC2 1) :=
  registry_membership opsC2 (by decide) (by decide) 1
